import Mathlib

/-!
Verification development for the configuration-driven crawler in `scrape.py`.

Python strings are modelled as Lean `String`s (or `List Char` where byte-level
reasoning is needed); Python's UTF-8 byte length `len(s.encode('utf-8'))`
is modelled by summing `Char.utf8Size`.  Filesystem effects of the download
pipeline are modelled by an explicit record of which artifact paths hold a
file; the external probe and the download backends are inputs to the
functions that consume them, exactly at the boundary the source calls them.
-/

/-! ## Download validation and commit (`get_video_metadata`, `download_file`) -/

/-- The fields of a successful probe that the pipeline keeps
(`get_video_metadata`'s return dict, reduced to the numeric facts the
validation logic uses). -/
structure VideoInfo where
  size : Nat
  durationSecs : ℚ
  deriving Repr, DecidableEq

/-- Embeds `get_video_metadata` (scrape.py, validation part): given the
probe's reported file size in bytes and duration in seconds, reject
(`None`) when `duration > 0 and file_size / duration < 10240`
(the 10 KiB/s sanity threshold), otherwise return the metadata. -/
def get_video_metadata (size : Nat) (duration : ℚ) : Option VideoInfo :=
  if 0 < duration ∧ (size : ℚ) / duration < 10240 then none
  else some ⟨size, duration⟩

/-- Which of the two artifact paths of one download hold a file:
the hidden temporary path (`.name` beside the destination) and the
final destination path. -/
structure ArtifactFS where
  temp : Bool
  final : Bool
  deriving Repr, DecidableEq

/-- Embeds the commit logic of `download_file` (scrape.py): the chosen
backend has run (`backendOk` = its boolean result, `tempWritten` = whether
the temporary file exists afterwards), the artifact starts absent from the
final path.  On backend success with a temp file present, the probe result
decides between atomic promotion (`os.rename`) and deletion of the temp
file; every failure path deletes the temporary file when present.  Returns
the function's boolean result together with the resulting filesystem
state. -/
def download_file (backendOk tempWritten : Bool) (probeSize : Nat)
    (probeDuration : ℚ) : Bool × ArtifactFS :=
  if backendOk && tempWritten then
    match get_video_metadata probeSize probeDuration with
    | some _ => (true, ⟨false, true⟩)
    | none => (false, ⟨false, false⟩)
  else if !backendOk then
    (false, ⟨false, false⟩)
  else
    (false, ⟨false, false⟩)

/-! ## Dedup state store gate (`is_url_processed`, `process_list_page`,
`process_video_page`) -/

/-- Embeds `is_url_processed` (scrape.py): membership of the URL in the
in-memory state set. -/
def is_url_processed (url : String) (state : List String) : Bool :=
  url ∈ state

/-- Embeds the success-recording step of `process_video_page`
(`if success and not is_url_processed(...): state_set.add(...); save_state(...)`):
append the URL to the state store when not already present. -/
def record_success (url : String) (state : List String) : List String :=
  if is_url_processed url state then state else state ++ [url]

/-- Embeds one item step of `process_list_page`'s item loop: the dedup gate
(`if is_url_processed(video_url, state_set) and not (overwrite or new_nfo):
skip`) followed, when not skipped, by the dispatch to `process_video_page`
whose download outcome is the external `download` capability; on success
the URL is recorded.  Returns (pipeline was invoked, new state). -/
def process_list_item (download : String → Bool) (overwrite newNfo : Bool)
    (state : List String) (url : String) : Bool × List String :=
  if is_url_processed url state && !(overwrite || newNfo) then
    (false, state)
  else
    (true, if download url then record_success url state else state)

theorem mem_process_list_item_state (download : String → Bool)
    (overwrite newNfo : Bool) (state : List String) (url : String)
    (h : download url = true) :
    url ∈ (process_list_item download overwrite newNfo state url).2 := by
  unfold process_list_item
  by_cases hg : (is_url_processed url state && !(overwrite || newNfo)) = true
  · simp only [hg, if_true]
    have : url ∈ state := by
      have := (Bool.and_eq_true _ _).mp hg |>.1
      simpa [is_url_processed] using this
    simpa using this
  · simp only [Bool.not_eq_true] at hg
    simp only [hg, Bool.false_eq_true, if_false, h, if_true]
    by_cases hp : is_url_processed url state = true
    · have : url ∈ state := by simpa [is_url_processed] using hp
      simp [record_success, hp, this]
    · simp [record_success, hp]

/-- C2: once an item URL is recorded in the dedup state store (which
`record_success` does immediately upon the item's full success), a second
traversal encountering the URL with neither the overwrite flag nor the
refresh (`new_nfo`) flag set skips it: the download pipeline is not
invoked and the state is unchanged. -/
theorem dedup_second_traversal_skips (download : String → Bool)
    (overwrite newNfo : Bool) (state : List String) (url : String)
    (h : download url = true) :
    process_list_item download false false
        (process_list_item download overwrite newNfo state url).2 url
      = (false, (process_list_item download overwrite newNfo state url).2) := by
  have hmem := mem_process_list_item_state download overwrite newNfo state url h
  unfold process_list_item
  have hp : is_url_processed url (process_list_item download overwrite newNfo state url).2 = true := by
    simpa [is_url_processed] using hmem
  simp [process_list_item] at hp ⊢
  simp [hp]

theorem dedup_second_traversal_skips_witness :
    process_list_item (fun _ => true) false false
        (process_list_item (fun _ => true) true false [] "http://site/v/1").2
        "http://site/v/1"
      = (false, (process_list_item (fun _ => true) true false [] "http://site/v/1").2) :=
  dedup_second_traversal_skips (fun _ => true) true false [] "http://site/v/1" rfl

/-- C1: a downloaded file whose probe reports duration 120 s and size
100000 bytes (≈833 B/s, below the 10 KiB/s threshold) fails validation:
`get_video_metadata` returns `None`, `download_file` reports failure, and
neither the temporary nor the final path holds an artifact. -/
theorem probe_sanity_failure_leaves_no_artifact :
    download_file true true 100000 120 = (false, ⟨false, false⟩) ∧
      get_video_metadata 100000 120 = none := by
  constructor
  · have h : get_video_metadata 100000 120 = none := by
      unfold get_video_metadata
      rw [if_pos]
      constructor
      · norm_num
      · norm_num
    simp [download_file, h]
  · unfold get_video_metadata
    rw [if_pos]
    constructor
    · norm_num
    · norm_num

/-! ## Filename construction (`process_title`, `construct_filename`) -/

/-- Python's default whitespace set for `str.strip`/`str.rstrip`
(ASCII part; the titles and fixed parts handled here are ASCII-safe). -/
def isPySpace (c : Char) : Bool :=
  c = ' ' || c = '\t' || c = '\n' || c = '\r' || c = Char.ofNat 11 || c = Char.ofNat 12

/-- `str.rstrip()` on a character-list string. -/
def pyRstrip (s : List Char) : List Char :=
  (s.reverse.dropWhile isPySpace).reverse

/-- `len(s.encode('utf-8'))`: UTF-8 byte length of a character-list string. -/
def utf8Len (s : List Char) : Nat :=
  (s.map Char.utf8Size).sum

/-- Embeds `process_title` (scrape.py): remove every occurrence of every
configured invalid character from the title, in declaration order. -/
def process_title (title : List Char) (invalid_chars : List Char) : List Char :=
  invalid_chars.foldl (fun t c => t.filter (fun d => d ≠ c)) title

/-- The f-string `f"{prefix}{processed_title}{suffix}{unique_id}{extension}"`
of `construct_filename` (with `unique_id` empty when no uniqueness flag is
set, so the two branches of the source coincide). -/
def build_filename (pre suf uid ext t : List Char) : List Char :=
  pre ++ t ++ suf ++ uid ++ ext

/-- Embeds the byte-trimming `while` loop of `construct_filename`:
while the built filename exceeds 255 UTF-8 bytes, drop
`excess // 4 + 1` characters from the end of the title and rstrip.
The loop is expressed with explicit fuel; `none` means the fuel ran out,
which (because each productive iteration strictly shortens a nonempty
title and an empty title is a fixed point) happens for fuel
`t.length + 1` exactly when the source loop never terminates. -/
def byteTrim (pre suf uid ext : List Char) : Nat → List Char → Option (List Char)
  | 0, _ => none
  | fuel + 1, t =>
    let f := build_filename pre suf uid ext t
    if utf8Len f > 255 then
      let trim := (utf8Len f - 255) / 4 + 1
      byteTrim pre suf uid ext fuel (pyRstrip (t.take (t.length - trim)))
    else some f

/-- Embeds `construct_filename` (scrape.py): sanitize the title, compute
the character budget from `min(max_chars, 255)` minus the fixed parts
(falling back to `max(1, 255 - fixed_length)` when that is non-positive),
truncate the title to the budget, then run the byte-trimming loop.  The
random `unique_id` of the source (empty string when neither uniqueness
flag is set, otherwise an underscore plus six random characters) is taken
as the argument `uniqueId`. -/
def construct_filename (title pre suf ext : List Char) (invalid_chars : List Char)
    (maxChars : Nat) (uniqueId : List Char) : Option (List Char) :=
  let processed := process_title title invalid_chars
  let fixed : Nat := pre.length + suf.length + ext.length + uniqueId.length
  let maxTitle0 : Int := (min maxChars 255 : Nat) - (fixed : Int)
  let maxTitle : Int := if maxTitle0 ≤ 0 then max 1 (255 - (fixed : Int)) else maxTitle0
  let t0 := if (processed.length : Int) > maxTitle
    then pyRstrip (processed.take maxTitle.toNat) else processed
  byteTrim pre suf uniqueId ext (t0.length + 1) t0

theorem utf8Len_append (a b : List Char) :
    utf8Len (a ++ b) = utf8Len a + utf8Len b := by
  simp [utf8Len]

theorem prefix_pyRstrip (s : List Char) : pyRstrip s <+: s := by
  have h := List.rdropWhile_prefix isPySpace s
  simpa [List.rdropWhile, pyRstrip] using h

theorem pyRstrip_length_le (s : List Char) : (pyRstrip s).length ≤ s.length :=
  (prefix_pyRstrip s).sublist.length_le

theorem byteTrim_byte_bound (pre suf uid ext : List Char) :
    ∀ fuel t f, byteTrim pre suf uid ext fuel t = some f → utf8Len f ≤ 255 := by
  intro fuel
  induction fuel with
  | zero => intro t f h; simp [byteTrim] at h
  | succ n ih =>
    intro t f h
    rw [byteTrim] at h
    by_cases hc : utf8Len (build_filename pre suf uid ext t) > 255
    · simp only [hc, if_true] at h
      exact ih _ _ h
    · simp only [hc, if_false] at h
      cases h
      omega

theorem byteTrim_isSome (pre suf uid ext : List Char)
    (h : utf8Len (build_filename pre suf uid ext []) ≤ 255) :
    ∀ fuel t, t.length < fuel → (byteTrim pre suf uid ext fuel t).isSome := by
  intro fuel
  induction fuel with
  | zero => intro t ht; omega
  | succ n ih =>
    intro t ht
    rw [byteTrim]
    by_cases hc : utf8Len (build_filename pre suf uid ext t) > 255
    · simp only [hc, if_true]
      have hne : t ≠ [] := by
        intro he; rw [he] at hc; omega
      have hlen : 0 < t.length := List.length_pos.mpr hne
      apply ih
      have h1 : (t.take (t.length - ((utf8Len (build_filename pre suf uid ext t) - 255) / 4 + 1))).length
          ≤ t.length - 1 := by
        rw [List.length_take]
        omega
      have h2 := pyRstrip_length_le
        (t.take (t.length - ((utf8Len (build_filename pre suf uid ext t) - 255) / 4 + 1)))
      omega
    · simp [hc]

theorem construct_filename_some (title pre suf ext invalid_chars : List Char)
    (maxChars : Nat) (uniqueId : List Char)
    (h : utf8Len (build_filename pre suf uniqueId ext []) ≤ 255) :
    ∃ f, construct_filename title pre suf ext invalid_chars maxChars uniqueId = some f ∧
      utf8Len f ≤ 255 := by
  have key : ∀ t0 : List Char,
      ∃ f, byteTrim pre suf uniqueId ext (t0.length + 1) t0 = some f ∧ utf8Len f ≤ 255 := by
    intro t0
    rcases Option.isSome_iff_exists.mp
      (byteTrim_isSome pre suf uniqueId ext h (t0.length + 1) t0 (Nat.lt_succ_self _))
      with ⟨f, hf⟩
    exact ⟨f, hf, byteTrim_byte_bound pre suf uniqueId ext _ _ _ hf⟩
  unfold construct_filename
  exact key _

/-- C6: with extension `.mp4`, no prefix, no suffix and no uniqueness
suffix, `construct_filename` returns, for every title and every
invalid-character list, a filename of at most 255 UTF-8 bytes. -/
theorem construct_filename_le_255_bytes (title invalid_chars : List Char) :
    ∃ f, construct_filename title [] [] ".mp4".toList invalid_chars 255 [] = some f ∧
      utf8Len f ≤ 255 :=
  construct_filename_some title [] [] ".mp4".toList invalid_chars 255 [] (by decide)

theorem byteTrim_stuck_on_empty_title (pre suf uid ext : List Char)
    (h : utf8Len (build_filename pre suf uid ext []) > 255) :
    ∀ fuel, byteTrim pre suf uid ext fuel [] = none := by
  intro fuel
  induction fuel with
  | zero => simp [byteTrim]
  | succ n ih =>
    rw [byteTrim]
    simp only [h, if_true]
    simpa using ih

set_option maxRecDepth 8000 in
/-- C10: the byte-trimming loop of `construct_filename` does not always
terminate.  With a 300-character prefix (fixed parts alone over 255
bytes), title `"hello"`, extension `.mp4` and no suffix or uniqueness
suffix, the loop reaches an empty title that it can no longer shorten
while the filename still exceeds 255 bytes: the empty title is a fixed
point of the loop body for every amount of fuel (the source loops
forever), so the modelled function reports divergence (`none`). -/
theorem construct_filename_diverges_on_long_prefix :
    construct_filename "hello".toList (List.replicate 300 'a') [] ".mp4".toList [] 255 []
        = none ∧
      ∀ fuel, byteTrim (List.replicate 300 'a') [] [] ".mp4".toList fuel [] = none := by
  constructor
  · decide
  · exact byteTrim_stuck_on_empty_title _ _ _ _ (by decide)


/-! ## Multi-value field extraction (`extract_data`, dedup of
tags/actors/producers/studios) -/

/-- `str.strip()`: drop leading and trailing whitespace. -/
def pyStrip (s : String) : String :=
  ⟨pyRstrip (s.data.dropWhile isPySpace)⟩

/-- `str.lower()` (ASCII part): lowercase every character. -/
def pyLower (s : String) : String :=
  ⟨s.data.map Char.toLower⟩

/-- The case-insensitive dedup loop of `extract_data`
(`seen = set(); [v for v in value if not (v.lower() in seen or
seen.add(v.lower()))]`): keep a value iff its lowercased form has not
been seen yet. -/
def dedupGo (seen : List String) : List String → List String
  | [] => []
  | v :: vs =>
    if pyLower v ∈ seen then dedupGo seen vs
    else v :: dedupGo (pyLower v :: seen) vs

/-- The trimmed, nonempty matched-element texts that `extract_data`
collects for a multi-value field
(`[element.text.strip() for element in elements if ... element.text and
element.text.strip()]`). -/
def trimmed_texts (texts : List String) : List String :=
  (texts.filter fun t => t ≠ "" && pyStrip t ≠ "").map pyStrip

/-- Embeds the multi-value branch of `extract_data` (scrape.py) for the
fields tags/actors/producers/studios: collect trimmed texts, the (no-op)
`normalized_values` membership filter of the source, then the
case-insensitive first-occurrence dedup. -/
def extract_multi_value (texts : List String) : List String :=
  let values := trimmed_texts texts
  let normalized := values.map pyLower
  let value := values.filter fun v => decide (pyLower v ∈ normalized)
  dedupGo [] value

/-- Specification-side restatement of "deduplicate case-insensitively
while preserving the original order and the casing of the first
occurrence": keep each head and drop every later entry with the same
lowercased form. -/
def keepFirstOccurrence : List String → List String
  | [] => []
  | v :: vs => v :: keepFirstOccurrence (vs.filter fun w => decide (pyLower w ≠ pyLower v))
termination_by l => l.length
decreasing_by
  simp only [List.length_cons]
  have := List.length_filter_le (fun w => decide (pyLower w ≠ pyLower v)) vs
  omega

theorem keepFirstOccurrence_nil : keepFirstOccurrence [] = [] := by
  rw [keepFirstOccurrence]

theorem keepFirstOccurrence_cons (v : String) (vs : List String) :
    keepFirstOccurrence (v :: vs)
      = v :: keepFirstOccurrence (vs.filter fun w => decide (pyLower w ≠ pyLower v)) := by
  rw [keepFirstOccurrence]

theorem dedupGo_eq_keepFirst (vs : List String) :
    ∀ seen, dedupGo seen vs
      = keepFirstOccurrence (vs.filter fun v => decide (pyLower v ∉ seen)) := by
  induction vs with
  | nil => intro seen; simp [dedupGo, keepFirstOccurrence_nil]
  | cons v vs ih =>
    intro seen
    by_cases hmem : pyLower v ∈ seen
    · rw [dedupGo, if_pos hmem, List.filter_cons, if_neg (by simp [hmem])]
      exact ih seen
    · rw [dedupGo, if_neg hmem, List.filter_cons, if_pos (by simp [hmem])]
      rw [keepFirstOccurrence_cons, ih (pyLower v :: seen)]
      congr 1
      rw [List.filter_filter]
      congr 1
      apply List.filter_congr
      intro w _
      simp only [List.mem_cons, not_or, Bool.decide_and, decide_not]

/-- C7: for the multi-value fields, `extract_data`'s extraction equals the
order-preserving, first-occurrence-casing, case-insensitive dedup of the
trimmed matched texts; in particular `["Jane", "jane", "Bob"]` yields
`["Jane", "Bob"]`. -/
theorem extract_multi_value_dedup :
    (∀ texts, extract_multi_value texts = keepFirstOccurrence (trimmed_texts texts)) ∧
      extract_multi_value ["Jane", "jane", "Bob"] = ["Jane", "Bob"] := by
  constructor
  · intro texts
    show dedupGo []
        ((trimmed_texts texts).filter fun v =>
          decide (pyLower v ∈ (trimmed_texts texts).map pyLower))
      = keepFirstOccurrence (trimmed_texts texts)
    have hnoop : (trimmed_texts texts).filter
        (fun v => decide (pyLower v ∈ (trimmed_texts texts).map pyLower))
        = trimmed_texts texts := by
      apply List.filter_eq_self.mpr
      intro a ha
      exact decide_eq_true (List.mem_map_of_mem pyLower ha)
    rw [hnoop, dedupGo_eq_keepFirst]
    congr 1
    apply List.filter_eq_self.mpr
    intro a _
    simp
  · decide

/-! ## Title casing (`custom_title_case`) and metadata finalization
(`finalize_metadata`) -/

/-- The gate regex `[a-z][A-Z]|[A-Z][a-z]` of `custom_title_case`:
some adjacent character pair is lowercase-then-uppercase or
uppercase-then-lowercase (ASCII letter classes, as in the source
regex). -/
def hasCasePairList : List Char → Bool
  | a :: b :: rest =>
    (a.isLower && b.isUpper) || (a.isUpper && b.isLower) || hasCasePairList (b :: rest)
  | _ => false

/-- `re.search` of the mixed-case gate pattern over the whole text. -/
def hasCasePair (text : String) : Bool :=
  hasCasePairList text.data

/-- The override dictionary of `custom_title_case`
(`{term.lower(): term for term in uppercase_list}`, so a later list entry
overwrites an earlier one with the same lowercased form) looked up at a
lowercased key. -/
def overrideLookup (ulist : List String) (keyLower : String) : Option String :=
  ulist.reverse.find? fun term => pyLower term == keyLower

/-- `str.split()` with no argument: split on whitespace runs, no empty
pieces. `splitOnSpaces` cuts at every whitespace character; the caller
drops the empty pieces. -/
def splitOnSpaces : List Char → List (List Char)
  | [] => [[]]
  | c :: cs =>
    if isPySpace c then [] :: splitOnSpaces cs
    else
      match splitOnSpaces cs with
      | [] => [[c]]
      | w :: ws => (c :: w) :: ws

/-- `text.split()` on a Lean string. -/
def pySplit (text : String) : List String :=
  ((splitOnSpaces text.data).map fun l => (⟨l⟩ : String)).filter fun w => w ≠ ""

/-- `str.title()` (ASCII): uppercase every letter that follows a
non-letter, lowercase every letter that follows a letter. -/
def pyTitleList : List Char → Bool → List Char
  | [], _ => []
  | c :: cs, prevCased =>
    (if c.isAlpha then (if prevCased then c.toLower else c.toUpper) else c)
      :: pyTitleList cs c.isAlpha

/-- `word.title()`. -/
def pyTitle (w : String) : String :=
  ⟨pyTitleList w.data false⟩

/-- `' '.join(words)`. -/
def joinSpace : List String → String
  | [] => ""
  | [w] => w
  | w :: ws => w ++ " " ++ joinSpace ws

/-- Embeds `custom_title_case` (scrape.py): empty text is returned as is;
with `preserve_mixed_case`, text matching the mixed-case gate whose
lowercased form is not in the override list is returned untouched;
otherwise the text is split into whitespace-separated words and each word
is replaced by its override's exact casing when its lowercased form is an
override key, else title-cased — except that with `preserve_mixed_case` a
single word is kept as is; whitespace-only text falls into the
`not words` branch (override of the whole text, else `text.title()`). -/
def custom_title_case (text : String) (uppercase_list : List String)
    (preserve_mixed_case : Bool) : String :=
  if text = "" then text
  else if preserve_mixed_case && hasCasePair text
      && !(uppercase_list.any fun u => pyLower u == pyLower text) then text
  else
    let words := pySplit text
    if words = [] then (overrideLookup uppercase_list (pyLower text)).getD (pyTitle text)
    else
      joinSpace (words.map fun word =>
        match overrideLookup uppercase_list (pyLower word) with
        | some o => o
        | none => if !preserve_mixed_case || words.length > 1 then pyTitle word else word)

/-- Record shape of the metadata dict at the point `finalize_metadata`
consumes it: the three multi-value fields and the optional scalar
title/studio fields the function also re-cases. -/
structure MetaRecord where
  actors : List String
  studios : List String
  tags : List String
  title : Option String
  studio : Option String
  deriving Repr, DecidableEq

/-- `str.lstrip(c)` for the marker `#`: drop every leading `#`. -/
def lstripHash (s : String) : String :=
  ⟨s.data.dropWhile fun c => c = '#'⟩

/-- Embeds the normalization and priority-dedup stage of
`finalize_metadata` (scrape.py): drop falsy entries, strip leading `#`
markers, then remove from studios every entry whose lowercased form is an
actor's, and from tags every entry whose lowercased form is an actor's or
a surviving studio's.  Returns (actors, studios, tags) after the stage. -/
def finalize_dedup (actors studios tags : List String) :
    List String × List String × List String :=
  let a := (actors.filter fun x => x ≠ "").map lstripHash
  let s := (studios.filter fun x => x ≠ "").map lstripHash
  let t := (tags.filter fun x => x ≠ "").map lstripHash
  let aL := a.map pyLower
  let s2 := s.filter fun x => decide (pyLower x ∉ aL)
  let sL := s2.map pyLower
  let t2 := t.filter fun x => decide (pyLower x ∉ aL) && decide (pyLower x ∉ sL)
  (a, s2, t2)

/-- Embeds `finalize_metadata` (scrape.py): the dedup stage above followed
by the capitalization rules — actors and studios with
`preserve_mixed_case=True` against `case_overrides`, tags without
preservation against `case_overrides + tag_case_overrides`, the scalar
title (stripped) and studio (`#`-stripped) fields when truthy. -/
def finalize_metadata (md : MetaRecord)
    (case_overrides tag_case_overrides : List String) : MetaRecord :=
  let tagOv := case_overrides ++ tag_case_overrides
  let fd := finalize_dedup md.actors md.studios md.tags
  { actors := fd.1.map fun x => custom_title_case x case_overrides true
    studios := fd.2.1.map fun x => custom_title_case x case_overrides true
    tags := fd.2.2.map fun x => custom_title_case x tagOv false
    title := md.title.map fun ti =>
      if ti ≠ "" then custom_title_case (pyStrip ti) case_overrides false else ti
    studio := md.studio.map fun st =>
      if st ≠ "" then custom_title_case (lstripHash st) case_overrides true else st }

/-- C8: the dedup stage of `finalize_metadata` leaves no studio whose
lowercased form equals a (normalized) actor's and no tag whose lowercased
form equals an actor's or a surviving studio's; in particular
Actors=`["Jane Doe"]`, Tags=`["Jane Doe", "Comedy"]` finalizes with
Tags=`["Comedy"]`. -/
theorem finalize_metadata_priority_dedup :
    (∀ actors studios tags : List String,
      (∀ x ∈ (finalize_dedup actors studios tags).2.1,
        ∀ y ∈ (finalize_dedup actors studios tags).1, pyLower x ≠ pyLower y) ∧
      (∀ x ∈ (finalize_dedup actors studios tags).2.2,
        (∀ y ∈ (finalize_dedup actors studios tags).1, pyLower x ≠ pyLower y) ∧
        (∀ y ∈ (finalize_dedup actors studios tags).2.1, pyLower x ≠ pyLower y))) ∧
    finalize_metadata ⟨["Jane Doe"], [], ["Jane Doe", "Comedy"], none, none⟩ [] []
      = ⟨["Jane Doe"], [], ["Comedy"], none, none⟩ := by
  constructor
  · intro actors studios tags
    constructor
    · intro x hx y hy
      have hx' := List.of_mem_filter hx
      simp only [decide_eq_true_eq] at hx'
      intro he
      exact hx' (he ▸ List.mem_map_of_mem pyLower hy)
    · intro x hx
      have hx' := List.of_mem_filter hx
      rw [Bool.and_eq_true] at hx'
      rcases hx' with ⟨hxa, hxs⟩
      simp only [decide_eq_true_eq] at hxa hxs
      constructor
      · intro y hy he
        exact hxa (he ▸ List.mem_map_of_mem pyLower hy)
      · intro y hy he
        exact hxs (he ▸ List.mem_map_of_mem pyLower hy)
  · decide

theorem finalize_metadata_priority_dedup_witness :
    pyLower "Studio" ≠ pyLower "Jane" :=
  (finalize_metadata_priority_dedup.1 ["Jane"] ["jane", "Studio"] []).1
    "Studio" (by decide) "Jane" (by decide)

/-- C9 counterexample: the preserve-mixed-case gate fires on any adjacent
uppercase/lowercase letter pair, so the multi-token, merely-capitalized
text `"Jane doe"` (no internal capital after a lowercase letter, not a
single token) is returned untouched instead of receiving the generic
title-casing `"Jane Doe"` that the same input gets without
preservation. -/
theorem custom_title_case_not_single_token_gate :
    custom_title_case "Jane doe" [] true = "Jane doe" ∧
      custom_title_case "Jane doe" [] false = "Jane Doe" ∧
      ("Jane doe" : String) ≠ "Jane Doe" := by
  refine ⟨by decide, by decide, by decide⟩

theorem overrideLookup_eq_none (ulist : List String) (key : String)
    (h : ∀ u ∈ ulist, pyLower u ≠ key) : overrideLookup ulist key = none := by
  unfold overrideLookup
  rw [List.find?_eq_none]
  intro x hx
  simpa using h x (List.mem_reverse.mp hx)

/-- C9 amended: with `preserve_mixed_case`, any nonempty text containing
an adjacent uppercase/lowercase letter pair (in either order) whose
lowercased form matches no override term is left untouched; and a single
whitespace-free token without such a pair and with no override match is
also left untouched (generic title-casing under preservation only applies
to multi-token text). -/
theorem custom_title_case_preserve_mixed :
    ∀ (text : String) (ulist : List String),
      (text ≠ "" → hasCasePair text = true →
        (∀ u ∈ ulist, pyLower u ≠ pyLower text) →
        custom_title_case text ulist true = text) ∧
      (text ≠ "" → hasCasePair text = false → pySplit text = [text] →
        (∀ u ∈ ulist, pyLower u ≠ pyLower text) →
        custom_title_case text ulist true = text) := by
  intro text ulist
  constructor
  · intro h1 h2 h3
    have hany : (ulist.any fun u => pyLower u == pyLower text) = false := by
      rw [List.any_eq_false]
      intro u hu
      simpa using h3 u hu
    unfold custom_title_case
    rw [if_neg h1, if_pos]
    rw [h2, hany]
    rfl
  · intro h1 h2 h3 h4
    have hgate : (true && hasCasePair text
        && !(ulist.any fun u => pyLower u == pyLower text)) = false := by
      rw [h2]
      simp
    have hov : overrideLookup ulist (pyLower text) = none :=
      overrideLookup_eq_none ulist (pyLower text) h4
    unfold custom_title_case
    rw [if_neg h1, if_neg (by rw [hgate]; simp)]
    simp only [h3, List.length_cons, List.length_nil]
    rw [if_neg (by simp)]
    simp only [List.map_cons, List.map_nil, hov]
    norm_num
    rfl

theorem custom_title_case_preserve_mixed_witness :
    custom_title_case "McFly" [] true = "McFly" ∧
      custom_title_case "hello" [] true = "hello" :=
  ⟨(custom_title_case_preserve_mixed "McFly" []).1 (by decide) (by decide)
      (by intro u hu; simp at hu),
    (custom_title_case_preserve_mixed "hello" []).2 (by decide) (by decide) (by decide)
      (by intro u hu; simp at hu)⟩

/-! ## URL template compilation and route matching (`pattern_to_regex`,
`match_url_to_mode`) -/

/-- One component of a compiled URL template: a literal chunk (matched
verbatim, case-insensitively) or a named placeholder, which is digits-only
when its name is the reserved pagination field `page` and matches any
characters except `/?&#` otherwise. -/
inductive UrlComp where
  | lit (cs : List Char)
  | wild (name : List Char) (numeric : Bool)
  deriving Repr, DecidableEq

/-- `pattern.rstrip("/")`. -/
def rstripSlash (s : List Char) : List Char :=
  (s.reverse.dropWhile fun c => c = '/').reverse

/-- The character loop of `pattern_to_regex` (scrape.py): accumulate
literal chunks, enter a placeholder on `{`, emit it on `}` (digits-only
when the collected name is `page`), treat a stray `}` as a literal
character. -/
def parseLoop : List Char → List Char → Bool → List Char → List UrlComp
  | [], cur, _, _ => if cur = [] then [] else [.lit cur]
  | c :: rest, cur, inWild, name =>
    if c = '{' then
      (if cur = [] then [] else [.lit cur]) ++ parseLoop rest [] true []
    else if c = '}' then
      if inWild then .wild name (name = "page".data) :: parseLoop rest [] false []
      else parseLoop rest (cur ++ [c]) false name
    else if inWild then parseLoop rest cur true (name ++ [c])
    else parseLoop rest (cur ++ [c]) inWild name

/-- `static_count`: literal chunks are flushed exactly when nonempty, so
the source's counter equals the number of literal components. -/
def staticCount (comps : List UrlComp) : Nat :=
  (comps.filter fun c => match c with | .lit _ => true | _ => false).length

/-- `static_length`: total number of literal characters. -/
def staticLength (comps : List UrlComp) : Nat :=
  (comps.map fun c => match c with | .lit cs => cs.length | _ => 0).sum

/-- Embeds `pattern_to_regex` (scrape.py): compile the `/`-rstripped
template into components and the two specificity numbers; the final
`Bool` is `true` when the raw template contains no `?` and no `&`, i.e.
the compiled matcher is anchored at both ends (otherwise it permits a
trailing `&`-led query remainder). -/
def pattern_to_regex (pattern : String) : List UrlComp × Nat × Nat × Bool :=
  let comps := parseLoop (rstripSlash pattern.data) [] false []
  (comps, staticCount comps, staticLength comps,
    decide (¬('?' ∈ pattern.data ∨ '&' ∈ pattern.data)))

/-- Matching a component list against a path, with named captures.
Literals compare case-insensitively (the source compiles with
`re.IGNORECASE`); a placeholder consumes one or more admissible
characters, longest first (Python's greedy backtracking); at the end the
remainder must be empty under full anchoring, or empty / starting with
`&` under query anchoring (`(?:$|&.*)`). -/
def matchComps : List UrlComp → List Char → Bool → Option (List (List Char × List Char))
  | [], s, strictEnd =>
    if s = [] then some []
    else if !strictEnd && s.head? = some '&' then some []
    else none
  | .lit l :: rest, s, strictEnd =>
    if (l.map Char.toLower).isPrefixOf (s.map Char.toLower) then
      matchComps rest (s.drop l.length) strictEnd
    else none
  | .wild name numeric :: rest, s, strictEnd =>
    (List.range s.length).findSome? fun i =>
      let k := s.length - i
      let pre := s.take k
      if pre.all (fun c => if numeric then c.isDigit else decide (c ∉ ['/', '?', '&', '#'])) then
        (matchComps rest (s.drop k) strictEnd).map fun caps => (name, pre) :: caps
      else none

/-- C4: the compiled matcher of `/cat/{name}/{page}` consists of the two
literal chunks with an any-char-except-separators group for `name` and a
digits-only group for the reserved pagination field `page`; it matches
`/cat/foo/2` with captures name=`foo`, page=`2`, and rejects
`/cat/foo/bar`. -/
theorem pattern_matcher_page_digits :
    (pattern_to_regex "/cat/{name}/{page}").1
        = [.lit "/cat/".data, .wild "name".data false, .lit "/".data,
            .wild "page".data true] ∧
      matchComps (pattern_to_regex "/cat/{name}/{page}").1 "/cat/foo/2".data
          (pattern_to_regex "/cat/{name}/{page}").2.2.2
        = some [("name".data, "foo".data), ("page".data, "2".data)] ∧
      matchComps (pattern_to_regex "/cat/{name}/{page}").1 "/cat/foo/bar".data
          (pattern_to_regex "/cat/{name}/{page}").2.2.2
        = none := by
  refine ⟨by decide, by decide, by decide⟩

/-- Whether the compiled matcher of template `p` matches the path. -/
def patternMatches (path : List Char) (p : String) : Bool :=
  (matchComps (pattern_to_regex p).1 path (pattern_to_regex p).2.2.2).isSome

/-- `static_count` of a template, as the `Int` the selection loop
compares (`best_static_count` starts at `-1`). -/
def patternCount (p : String) : Int :=
  ((pattern_to_regex p).2.1 : Int)

/-- `static_length` of a template, as an `Int`. -/
def patternLen (p : String) : Int :=
  ((pattern_to_regex p).2.2.1 : Int)

/-- The update condition of the selection loop:
`static_count > best_static_count or (static_count == best_static_count
and static_length > best_static_length)`. -/
def better (c l bc bl : Int) : Bool :=
  decide (c > bc) || (decide (c = bc) && decide (l > bl))

/-- One pattern step of `match_url_to_mode`'s loop: on a match that is
strictly more specific than the best so far, install this mode. -/
def modeStep (path : List Char) (acc : Option String × Int × Int)
    (entry : String × String) : Option String × Int × Int :=
  if patternMatches path entry.2
      && better (patternCount entry.2) (patternLen entry.2) acc.2.1 acc.2.2 then
    (some entry.1, patternCount entry.2, patternLen entry.2)
  else acc

/-- Embeds the non-leaf selection loop of `match_url_to_mode` (scrape.py):
iterate the modes in declaration order and, per mode, its present
`url_pattern` / `url_pattern_pages` templates in order, tracking the best
(`static_count`, `static_length`) pair starting from `(-1, -1)`; return
the selected mode name. -/
def match_url_to_mode (path : List Char) (modes : List (String × List String)) :
    Option String :=
  (modes.foldl (fun acc m => m.2.foldl (fun acc2 p => modeStep path acc2 (m.1, p)) acc)
    (none, -1, -1)).1

theorem better_irrefl (c l : Int) : better c l c l = false := by
  simp [better]

theorem better_asymm (c l c2 l2 : Int) (h : better c l c2 l2 = true) :
    better c2 l2 c l = false := by
  simp only [better, Bool.or_eq_true, Bool.and_eq_true, decide_eq_true_eq] at h
  simp only [better, Bool.or_eq_false_iff, Bool.and_eq_false_iff,
    decide_eq_false_iff_not]
  omega

theorem modeStep_next (path : List Char) (acc : Option String × Int × Int)
    (entry : String × String) :
    modeStep path acc entry = acc ∨
      (patternMatches path entry.2 = true ∧
        modeStep path acc entry
          = (some entry.1, patternCount entry.2, patternLen entry.2)) := by
  unfold modeStep
  by_cases h : (patternMatches path entry.2
      && better (patternCount entry.2) (patternLen entry.2) acc.2.1 acc.2.2) = true
  · right
    exact ⟨((Bool.and_eq_true _ _).mp h).1, by rw [if_pos h]⟩
  · left
    rw [if_neg h]

theorem foldl_modeStep_no_better (path : List Char) (c0 l0 : Int) (n : String) :
    ∀ ℓ : List (String × String),
      (∀ e ∈ ℓ, patternMatches path e.2 = true →
        better (patternCount e.2) (patternLen e.2) c0 l0 = false) →
      ℓ.foldl (modeStep path) (some n, c0, l0) = (some n, c0, l0) := by
  intro ℓ
  induction ℓ with
  | nil => intro _; rfl
  | cons e ℓ ih =>
    intro h
    rw [List.foldl_cons]
    have hstep : modeStep path (some n, c0, l0) e = (some n, c0, l0) := by
      unfold modeStep
      by_cases hm : patternMatches path e.2 = true
      · rw [if_neg]
        simp only [Bool.and_eq_true, not_and]
        intro _
        simp [h e (List.mem_cons_self e ℓ) hm]
      · rw [if_neg]
        simp only [Bool.and_eq_true, not_and]
        intro hm'
        exact absurd hm' hm
    rw [hstep]
    exact ih fun e' he' => h e' (List.mem_cons_of_mem e he')

theorem foldl_modeStep_install (path : List Char) (n₀ p₀ : String) :
    ∀ (ℓ : List (String × String)) (acc : Option String × Int × Int),
      (n₀, p₀) ∈ ℓ →
      patternMatches path p₀ = true →
      better (patternCount p₀) (patternLen p₀) acc.2.1 acc.2.2 = true →
      (∀ e ∈ ℓ, patternMatches path e.2 = true →
        e = (n₀, p₀) ∨
          better (patternCount p₀) (patternLen p₀)
            (patternCount e.2) (patternLen e.2) = true) →
      ℓ.foldl (modeStep path) acc = (some n₀, patternCount p₀, patternLen p₀) := by
  intro ℓ
  induction ℓ with
  | nil => intro acc hmem; exact absurd hmem (List.not_mem_nil _)
  | cons e ℓ ih =>
    intro acc hmem hmatch hbetter hall
    rw [List.foldl_cons]
    by_cases he : e = (n₀, p₀)
    · subst he
      have hstep : modeStep path acc (n₀, p₀)
          = (some n₀, patternCount p₀, patternLen p₀) := by
        unfold modeStep
        rw [if_pos]
        rw [hmatch, hbetter]
        rfl
      rw [hstep]
      apply foldl_modeStep_no_better
      intro e' he' hm'
      rcases hall e' (List.mem_cons_of_mem _ he') hm' with h | h
      · rw [h]
        exact better_irrefl _ _
      · exact better_asymm _ _ _ _ h
    · have hmem' : (n₀, p₀) ∈ ℓ := by
        rcases List.mem_cons.mp hmem with h | h
        · exact absurd h.symm he
        · exact h
      rcases modeStep_next path acc e with hstep | ⟨hm, hstep⟩
      · rw [hstep]
        exact ih acc hmem' hmatch hbetter fun e' he' =>
          hall e' (List.mem_cons_of_mem e he')
      · rw [hstep]
        rcases hall e (List.mem_cons_self e ℓ) hm with h | h
        · exact absurd h he
        · exact ih _ hmem' hmatch h fun e' he' =>
            hall e' (List.mem_cons_of_mem e he')

theorem match_url_to_mode_eq_flat (path : List Char)
    (modes : List (String × List String)) :
    match_url_to_mode path modes
      = ((modes.flatMap fun m => m.2.map fun p => (m.1, p)).foldl (modeStep path)
          (none, -1, -1)).1 := by
  unfold match_url_to_mode
  congr 1
  generalize ((none, -1, -1) : Option String × Int × Int) = acc
  induction modes generalizing acc with
  | nil => rfl
  | cons m modes ih =>
    rw [List.foldl_cons, ih, List.flatMap_cons, List.foldl_append]
    congr 1
    exact (List.foldl_map _ _ _ _).symm

/-- C3 counterexample: two modes whose templates both match
`/aaaaaaaabxc`; the first template has strictly more literal characters
(9 against 3), yet the matcher selects the second, because its
literal-chunk count is higher and the count is compared first. -/
theorem match_url_to_mode_more_literal_chars_loses :
    match_url_to_mode "/aaaaaaaabxc".data
        [("m1", ["/aaaaaaaa{x}"]), ("m2", ["/a{x}x{y}"])] = some "m2" ∧
      patternMatches "/aaaaaaaabxc".data "/aaaaaaaa{x}" = true ∧
      patternMatches "/aaaaaaaabxc".data "/a{x}x{y}" = true ∧
      patternLen "/aaaaaaaa{x}" > patternLen "/a{x}x{y}" := by
  refine ⟨by decide, by decide, by decide, by decide⟩

/-- C3 (amended): among the non-leaf modes, a matching template that is
strictly better than every other matching template under the selection
order — higher literal-chunk count, tie-broken by higher literal
character count — wins; in particular, of two modes whose templates both
match with equal literal-chunk counts, the one with more literal
characters is selected. -/
theorem match_url_to_mode_specificity (path : List Char)
    (modes : List (String × List String)) (n₀ : String) (ps₀ : List String)
    (p₀ : String)
    (h1 : (n₀, ps₀) ∈ modes) (h2 : p₀ ∈ ps₀)
    (h3 : patternMatches path p₀ = true)
    (h4 : ∀ m ∈ modes, ∀ p ∈ m.2, patternMatches path p = true →
      (m.1, p) = (n₀, p₀) ∨
        better (patternCount p₀) (patternLen p₀)
          (patternCount p) (patternLen p) = true) :
    match_url_to_mode path modes = some n₀ := by
  rw [match_url_to_mode_eq_flat]
  have hmem : (n₀, p₀) ∈ modes.flatMap fun m => m.2.map fun p => (m.1, p) := by
    rw [List.mem_flatMap]
    exact ⟨(n₀, ps₀), h1, List.mem_map_of_mem _ h2⟩
  have hall : ∀ e ∈ (modes.flatMap fun m => m.2.map fun p => (m.1, p)),
      patternMatches path e.2 = true → e = (n₀, p₀) ∨
        better (patternCount p₀) (patternLen p₀)
          (patternCount e.2) (patternLen e.2) = true := by
    intro e he hm
    rw [List.mem_flatMap] at he
    rcases he with ⟨m, hm', he'⟩
    rw [List.mem_map] at he'
    rcases he' with ⟨p, hp, rfl⟩
    exact h4 m hm' p hp hm
  have hinit : better (patternCount p₀) (patternLen p₀) (-1) (-1) = true := by
    have hc : (0 : Int) ≤ patternCount p₀ := Int.natCast_nonneg _
    simp only [better, Bool.or_eq_true, decide_eq_true_eq]
    left
    omega
  rw [foldl_modeStep_install path n₀ p₀ _ (none, -1, -1) hmem h3 hinit hall]

theorem match_url_to_mode_specificity_witness :
    match_url_to_mode "/x/yz".data [("a", ["/x/{w}"]), ("b", ["/x/y{w}"])]
      = some "b" :=
  match_url_to_mode_specificity "/x/yz".data
    [("a", ["/x/{w}"]), ("b", ["/x/y{w}"])] "b" ["/x/y{w}"] "/x/y{w}"
    (by decide) (by decide) (by decide) (by decide)

/-! ## URL template rendering (`construct_url`) -/

/-- A Python value a template keyword argument can hold at this call
site: a string, an integer, or `None`. -/
inductive PyVal where
  | str (s : String)
  | int (n : Int)
  | none
  deriving Repr, DecidableEq

/-- Decimal digits of a natural number (most significant first). -/
def natToCharsGo : Nat → Nat → List Char → List Char
  | 0, _, acc => acc
  | fuel + 1, n, acc =>
    let d := Char.ofNat (48 + n % 10)
    if n < 10 then d :: acc else natToCharsGo fuel (n / 10) (d :: acc)

/-- `str(n)` for a natural number. -/
def natToChars (n : Nat) : List Char :=
  natToCharsGo (n + 1) n []

/-- `str(n)` for an integer. -/
def intToChars (n : Int) : List Char :=
  if n < 0 then '-' :: natToChars n.natAbs else natToChars n.natAbs

/-- `str(value)` as Python's format substitution renders it. -/
def pyValStr : PyVal → List Char
  | .str s => s.data
  | .int n => intToChars n
  | .none => "None".data

/-- The value of a decimal digit string. -/
def natOfDigits (ds : List Char) : Nat :=
  ds.foldl (fun n c => n * 10 + (c.toNat - 48)) 0

/-- `int(value)`: an integer passes through; a string parses after
stripping whitespace, with one optional sign; anything else (including
`None`) raises, modelled as `Option.none`. -/
def pyToInt : PyVal → Option Int
  | .int n => some n
  | .str s =>
    let t := pyRstrip (s.data.dropWhile isPySpace)
    match t with
    | '-' :: ds =>
      if ds ≠ [] && ds.all Char.isDigit then some (-(natOfDigits ds : Int)) else Option.none
    | '+' :: ds =>
      if ds ≠ [] && ds.all Char.isDigit then some (natOfDigits ds : Int) else Option.none
    | ds =>
      if ds ≠ [] && ds.all Char.isDigit then some (natOfDigits ds : Int) else Option.none
  | .none => Option.none

/-- `s.replace(target, repl)`: replace every (non-overlapping, leftmost)
occurrence.  Expressed with fuel one above the string length, which the
scan (consuming at least one character per step) never exhausts; an empty
target returns the string unchanged (the source never calls it that way:
the target is a matched placeholder). -/
def replaceAllGo (target repl : List Char) : Nat → List Char → List Char
  | 0, s => s
  | fuel + 1, s =>
    match s with
    | [] => []
    | c :: rest =>
      if target ≠ [] && target.isPrefixOf (c :: rest) then
        repl ++ replaceAllGo target repl fuel ((c :: rest).drop target.length)
      else c :: replaceAllGo target repl fuel rest

/-- `s.replace(target, repl)`. -/
def replaceAllList (target repl s : List Char) : List Char :=
  replaceAllGo target repl (s.length + 1) s

/-- Parse the arithmetic pagination placeholder
`\x7bpage\s*([+-])\s*(\d+)\x7d` at the head of the character list;
returns (number of characters consumed, operator is `+`, operand). -/
def parseArithAt (s : List Char) : Option (Nat × Bool × Nat) :=
  if (('{' : Char) :: "page".data).isPrefixOf s then
    let s1 := s.drop 5
    let s2 := s1.dropWhile isPySpace
    let ws1 := s1.length - s2.length
    match s2 with
    | op :: s3 =>
      if op = '+' || op = '-' then
        let s4 := s3.dropWhile isPySpace
        let ws2 := s3.length - s4.length
        let ds := s4.takeWhile Char.isDigit
        if ds ≠ [] && (s4.drop ds.length).head? = some '}' then
          some (5 + ws1 + 1 + ws2 + ds.length + 1, op = '+', natOfDigits ds)
        else Option.none
      else Option.none
    | [] => Option.none
  else Option.none

/-- `re.search` of the arithmetic pagination placeholder: leftmost match,
returned as (matched text, operator is `+`, operand). -/
def findArith : List Char → Option (List Char × Bool × Nat)
  | [] => Option.none
  | c :: rest =>
    match parseArithAt (c :: rest) with
    | some (len, plus, v) => some ((c :: rest).take len, plus, v)
    | Option.none => findArith rest

/-- Association lookup for the keyword-argument dict. -/
def lookupKw (kwargs : List (List Char × PyVal)) (name : List Char) : Option PyVal :=
  (kwargs.find? fun kv => kv.1 == name).map fun kv => kv.2

/-- `pattern.format(**encoded_kwargs)`: substitute `\x7bname\x7d` fields
from the keyword arguments; a doubled brace is an escape; a missing key
(Python `KeyError`, the one error the source catches) and malformed
braces (Python `ValueError`, which would propagate) are both modelled as
failure.  Fuel one above the string length is never exhausted: every
step consumes at least one character. -/
def pyFormatGo (kwargs : List (List Char × PyVal)) : Nat → List Char → Option (List Char)
  | 0, _ => Option.none
  | fuel + 1, s =>
    match s with
    | [] => some []
    | '{' :: '{' :: rest => (pyFormatGo kwargs fuel rest).map fun t => '{' :: t
    | '{' :: rest =>
      let name := rest.takeWhile fun c => c ≠ '}'
      match rest.drop name.length with
      | '}' :: rest2 =>
        match lookupKw kwargs name with
        | some v => (pyFormatGo kwargs fuel rest2).map fun t => pyValStr v ++ t
        | Option.none => Option.none
      | _ => Option.none
    | '}' :: '}' :: rest => (pyFormatGo kwargs fuel rest).map fun t => '}' :: t
    | '}' :: _ => Option.none
    | c :: rest => (pyFormatGo kwargs fuel rest).map fun t => c :: t

/-- `pattern.format(**encoded_kwargs)`. -/
def pyFormat (kwargs : List (List Char × PyVal)) (s : List Char) : Option (List Char) :=
  pyFormatGo kwargs (s.length + 1) s

/-- The per-value encoding pass of `construct_url`: apply the mode's (or
site-wide) ordered string-replacement rules to string values. -/
def applyEncodingRules (rules : List (List Char × List Char)) (v : List Char) :
    List Char :=
  rules.foldl (fun acc r => replaceAllList r.1 r.2 acc) v

/-- Embeds `construct_url` (scrape.py) up to the final
`urllib.parse.urljoin` against the base URL (the claim concerns the
rendered path): handle one optional arithmetic pagination placeholder —
replace it with the computed integer when `page` is bound to an integer
(falling back to the raw value when `int()` fails), remove it entirely
when `page` is bound to `None` — then apply encoding rules to the
remaining string-valued keyword arguments (skipping `page` when the
arithmetic placeholder was handled), append the optional sort and
min-duration bindings, and substitute the remaining placeholders,
failing on an unbound name. -/
def construct_url (pattern : List Char) (rules : List (List Char × List Char))
    (kwargs : List (List Char × PyVal)) (sort minDuration : Option (List Char)) :
    Option (List Char) :=
  let arith := findArith pattern
  let pattern2 :=
    match arith, lookupKw kwargs "page".data with
    | some (txt, plus, v), some pv =>
      match pv with
      | .none => replaceAllList txt [] pattern
      | _ =>
        match pyToInt pv with
        | some n => replaceAllList txt (intToChars (if plus then n + v else n - v)) pattern
        | Option.none => replaceAllList txt (pyValStr pv) pattern
    | _, _ => pattern
  let encoded := kwargs.foldl (fun acc kv =>
    if kv.1 == "page".data && arith.isSome then acc
    else
      match kv.2 with
      | .str s => acc ++ [(kv.1, PyVal.str ⟨applyEncodingRules rules s.data⟩)]
      | v => acc ++ [(kv.1, v)]) []
  let encoded :=
    match sort with
    | some s => encoded ++ [("o".data, PyVal.str ⟨s⟩)]
    | Option.none => encoded
  let encoded :=
    match minDuration with
    | some d => encoded ++ [("min_duration".data, PyVal.str ⟨d⟩)]
    | Option.none => encoded
  pyFormat encoded pattern2

/-- C5: rendering `/page/\x7bpage - 1\x7d` with `page` bound to 5 yields
the path `/page/4` (the placeholder is replaced by the computed integer
before generic substitution); rendering it with `page` bound to `None`
removes the placeholder entirely, yielding `/page/`. -/
theorem construct_url_page_arithmetic :
    construct_url "/page/{page - 1}".data [] [("page".data, PyVal.int 5)]
        Option.none Option.none = some "/page/4".data ∧
      construct_url "/page/{page - 1}".data [] [("page".data, PyVal.none)]
        Option.none Option.none = some "/page/".data := by
  refine ⟨by decide, by decide⟩
